import Mathlib

/-!
Shallow embedding of `src/generate_structure.py`, a script that walks a
directory tree, extracts YAML include directives, and assembles a JSON
snapshot (`project_structure.json`).

Modelling conventions:
- Python strings are Lean `String`s (paths are ASCII in all concrete inputs;
  `\s` of Python regular expressions is modelled by the six ASCII whitespace
  characters, which is exact on ASCII text).
- A filesystem is a list of `FSNode` trees (the children of the root
  directory `.`). `FSNode.file name content` carries `content : Option String`
  where `none` models a file whose text cannot be read (the `except` branch of
  `yaml_includes`); `pathlib` path joining starting from `.` drops the leading
  `./`, so a path is the `/`-join of the component names.
- `os.walk` lists directory children in an unspecified order and `list_all`
  sorts its result, so the pre-sort emission order of the walk is modelled by
  the order of the `children` lists.
- Python `dict`s keep insertion order; they are modelled as association lists
  in insertion order (sibling names in one directory are distinct, so the
  overwrite-on-duplicate-key behaviour of `dict` never fires).
-/

/-- `EXCLUDE_DIRS` from the source (a Python `set`, used only for membership). -/
def EXCLUDE_DIRS : List String := [".git", ".github", "__pycache__", "venv", ".venv", ".idea"]

/-- `EXCLUDE_SUFFIXES` from the source. -/
def EXCLUDE_SUFFIXES : List String := [".pyc", ".log", ".tmp", ".bak"]

/-- `DESCR` from the source: an insertion-ordered dict, modelled as an
association list in the authored order. -/
def DESCR : List (String × String) :=
  [("configuration.yaml",
    "Главный файл конфигурации Home Assistant. Импортирует остальные YAML через !include."),
   ("customize.yaml", "Кастомизация friendly_name, иконок и атрибутов."),
   ("scripts.yaml",
    "Определение пользовательских скриптов (service calls, delay, последовательности)."),
   ("scenes.yaml", "Сцены (наборы состояний устройств)."),
   ("esphome", "Конфигурации устройств ESPHome (датчики, реле, контроллеры)."),
   ("zigbee2mqtt", "Настройки шлюза Zigbee2MQTT и устройств Zigbee."),
   ("includes", "Подключаемые YAML-части конфигурации (sensors, switches и т.п.)."),
   ("blueprints", "Шаблоны автоматизаций Home Assistant.")]

/-- Python `str.endswith`. -/
def strEndsWith (s pat : String) : Bool := pat.data.isSuffixOf s.data

/-- Python `str.lower` (exact on the ASCII strings it is applied to here). -/
def strLower (s : String) : String := String.mk (s.data.map Char.toLower)

/-- Is `key` a prefix of some suffix of the list, i.e. a contiguous infix. -/
def containsAux (key : List Char) : List Char → Bool
  | [] => key.isEmpty
  | c :: cs => key.isPrefixOf (c :: cs) || containsAux key cs

/-- Python `key in s` substring test. -/
def strContains (s key : String) : Bool := containsAux key.data s.data

/-- The final path component: `pathlib.PurePath.name` of a `/`-joined path
(the characters after the last slash). -/
def baseName (p : String) : String :=
  String.mk (p.data.reverse.takeWhile (fun c => !(c = '/'))).reverse

/-- Code-point lexicographic comparison of character lists, the order Python
`sorted` uses on the corresponding strings. -/
def strLeB : List Char → List Char → Bool
  | [], _ => true
  | _ :: _, [] => false
  | a :: as, b :: bs =>
    if a.toNat < b.toNat then true
    else if b.toNat < a.toNat then false
    else strLeB as bs

/-- Python `<=` on strings: code-point lexicographic order. -/
def strLe (a b : String) : Prop := strLeB a.data b.data = true

instance : DecidableRel strLe := fun a b =>
  inferInstanceAs (Decidable (strLeB a.data b.data = true))

/-- `pathlib.PurePath.suffix` of a path component `name`: `name[i:]` where `i`
is the index of the last dot, provided `0 < i < len(name) - 1`, else `""`. -/
def pathSuffix (name : String) : String :=
  let l := name.data
  match l.reverse.findIdx? (fun c => c = '.') with
  | none => ""
  | some j =>
    let i := l.length - 1 - j
    if 0 < i ∧ i < l.length - 1 then String.mk (l.drop i) else ""

/-- `is_skip_dir` from the source: directory-name membership in `EXCLUDE_DIRS`. -/
def is_skip_dir (d : String) : Bool := EXCLUDE_DIRS.contains d

/-- `is_skip_file` from the source, applied to `p.name` (the base name of the
walked path, which is exactly the listing entry `f`). -/
def is_skip_file (name : String) : Bool := EXCLUDE_SUFFIXES.any (fun x => strEndsWith name x)

/-- Python `\s` on ASCII text. -/
def isSpace (c : Char) : Bool :=
  c = ' ' || c = '\t' || c = '\n' || c = '\r' || c = '\x0b' || c = '\x0c'

/-- Case-insensitive literal match (the `re.IGNORECASE` flag applied to the
literal `include`): consume `pat` from the front of the input, comparing
lowercased input characters, returning the rest. -/
def matchCI : List Char → List Char → Option (List Char)
  | [], cs => some cs
  | _ :: _, [] => none
  | p :: ps, c :: cs => if c.toLower = p then matchCI ps cs else none

/-- The literal word of `INCLUDE_RE`. -/
def includeWord : List Char := ['i', 'n', 'c', 'l', 'u', 'd', 'e']

/-- One attempted match of `INCLUDE_RE = !\s*include[^\s]*\s+([^\s#]+)` at the
head of the input.  Each greedy piece is forced (a shorter take would put a
whitespace or forbidden character where the next piece requires otherwise), so
the backtracking regex engine is equivalent to this deterministic scan.
Returns the captured group and the input remaining after the whole match. -/
def matchIncludeAt : List Char → Option (String × List Char)
  | '!' :: rest =>
    let r1 := rest.dropWhile isSpace
    match matchCI includeWord r1 with
    | none => none
    | some r2 =>
      let r3 := r2.dropWhile (fun c => !(isSpace c))
      match r3 with
      | [] => none
      | _ :: _ =>
        let r4 := r3.dropWhile isSpace
        let tgt := r4.takeWhile (fun c => !(isSpace c) && c != '#')
        match tgt with
        | [] => none
        | _ :: _ => some (String.mk tgt, r4.drop tgt.length)
  | _ => none

/-- `INCLUDE_RE.finditer`: scan left to right, emitting each non-overlapping
match and resuming after it.  Fuel-driven; every successful match consumes at
least one character, so fuel equal to the input length is always sufficient. -/
def findIncludesAux : Nat → List Char → List String
  | 0, _ => []
  | _ + 1, [] => []
  | fuel + 1, c :: cs =>
    match matchIncludeAt (c :: cs) with
    | some (t, rest) => t :: findIncludesAux fuel rest
    | none => findIncludesAux fuel cs

/-- All captured include targets of a text, in match order
(`m.group(1) for m in INCLUDE_RE.finditer(text)`). -/
def findIncludes (s : List Char) : List String := findIncludesAux s.length s

/-- Python `sorted(set(xs))` on strings: the distinct elements in lexicographic
(code-point) order. -/
def sortedSet (xs : List String) : List String := List.insertionSort strLe xs.dedup

/-- `yaml_includes` from the source.  `content = none` models a read failure
(the `except Exception: return []` branch). -/
def yaml_includes (path : String) (content : Option String) : List String :=
  if strEndsWith (strLower (pathSuffix (baseName path))) "yaml" then
    match content with
    | none => []
    | some text => sortedSet (findIncludes text.data)
  else []

/-- `describe` from the source: first `DESCR` key (in authored order) that is a
substring of the path string wins; otherwise dispatch on the suffix. -/
def describe (p : String) : String :=
  match DESCR.find? (fun kv => strContains p kv.1) with
  | some kv => kv.2
  | none =>
    let suf := pathSuffix (baseName p)
    if suf = ".yaml" ∨ suf = ".yml" then "YAML конфигурация."
    else if suf = ".json" then "JSON данные."
    else if suf = ".py" then "Python-скрипт."
    else ""

/-- A filesystem node.  `file name content` with `content = none` is a file
whose text cannot be read; `dir name children` lists the children in the
(unspecified, later sorted away) `os.walk` listing order. -/
inductive FSNode where
  | file (name : String) (content : Option String)
  | dir (name : String) (children : List FSNode)
deriving Repr

/-- The name of a node (`Path.name` / the listing entry). -/
def fsName : FSNode → String
  | .file n _ => n
  | .dir n _ => n

/-- `"directory" if e.is_dir() else "file"`. -/
def nodeType : FSNode → String
  | .file _ _ => "file"
  | .dir _ _ => "directory"

/-- Join path components with `/` (starting from root `.`, which `pathlib`
normalisation drops, so the first component carries no prefix). -/
def joinParts : List String → String
  | [] => ""
  | [x] => x
  | x :: xs => x ++ "/" ++ joinParts xs

/-- The recursive walk of `list_all` before sorting: `os.walk` with the
in-place pruning `dn[:] = [d for d in dn if not is_skip_dir(d)]` and the
per-file test `if is_skip_file(p): continue`.  Emits the component lists
(relative to the root) of all kept files, paired with their contents.
Directories themselves are never emitted (`os.walk` file lists contain only
non-directories, and `list_all` appends only those). -/
def walkParts (pre : List String) : List FSNode → List (List String × Option String)
  | [] => []
  | FSNode.file n c :: rest =>
    (if is_skip_file n then [] else [(pre ++ [n], c)]) ++ walkParts pre rest
  | FSNode.dir n ch :: rest =>
    (if is_skip_dir n then [] else walkParts (pre ++ [n]) ch) ++ walkParts pre rest

/-- The sort key of `sorted(files, key=str)`: compare joined path strings in
code-point lexicographic order. -/
def pathLe (a b : String × Option String) : Prop := strLe a.1 b.1

instance : DecidableRel pathLe := fun a b => inferInstanceAs (Decidable (strLe a.1 b.1))

/-- `list_all` from the source: walk from the root, then
`sorted(files, key=str)`. -/
def list_all (fs : List FSNode) : List (String × Option String) :=
  List.insertionSort pathLe ((walkParts [] fs).map (fun x => (joinParts x.1, x.2)))

theorem strLeB_total (as bs : List Char) : strLeB as bs = true ∨ strLeB bs as = true := by
  induction as generalizing bs with
  | nil => exact Or.inl rfl
  | cons a as ih =>
    cases bs with
    | nil => exact Or.inr rfl
    | cons b bs =>
      simp only [strLeB]
      rcases Nat.lt_trichotomy a.toNat b.toNat with h | h | h
      · left; rw [if_pos h]
      · rw [if_neg (by omega), if_neg (by omega), if_neg (by omega), if_neg (by omega)]
        exact ih bs
      · right; rw [if_pos h]

theorem strLeB_trans (as : List Char) :
    ∀ bs cs, strLeB as bs = true → strLeB bs cs = true → strLeB as cs = true := by
  induction as with
  | nil => intro bs cs _ _; rfl
  | cons a as ih =>
    intro bs cs h1 h2
    cases bs with
    | nil => simp [strLeB] at h1
    | cons b bs =>
      cases cs with
      | nil => simp [strLeB] at h2
      | cons c cs =>
        simp only [strLeB] at h1 h2 ⊢
        rcases Nat.lt_trichotomy a.toNat b.toNat with hab | hab | hab
        · rcases Nat.lt_trichotomy b.toNat c.toNat with hbc | hbc | hbc
          · rw [if_pos (by omega)]
          · rw [if_pos (by omega)]
          · rw [if_neg (by omega), if_pos hbc] at h2; simp at h2
        · rw [if_neg (by omega), if_neg (by omega)] at h1
          rcases Nat.lt_trichotomy b.toNat c.toNat with hbc | hbc | hbc
          · rw [if_pos (by omega)]
          · rw [if_neg (by omega), if_neg (by omega)] at h2 ⊢
            exact ih bs cs h1 h2
          · rw [if_neg (by omega), if_pos hbc] at h2; simp at h2
        · rw [if_neg (by omega), if_pos hab] at h1; simp at h1

instance : IsTotal String strLe := ⟨fun a b => strLeB_total a.data b.data⟩

instance : IsTrans String strLe := ⟨fun a b c => strLeB_trans a.data b.data c.data⟩

instance : IsTotal (String × Option String) pathLe := ⟨fun a b => strLeB_total a.1.data b.1.data⟩

instance : IsTrans (String × Option String) pathLe :=
  ⟨fun a b c => strLeB_trans a.1.data b.1.data c.1.data⟩

/-- `top_level` from the source: the direct children of the root whose names
pass `is_skip_dir` (note: only the directory-name filter is applied, files
with excluded suffixes are kept here). -/
def top_level (fs : List FSNode) : List FSNode :=
  fs.filter (fun e => !(is_skip_dir (fsName e)))

/-- `build_root_map` from the source: name ↦ (type, optional description);
`describe` is applied to the path string, which for a direct child of `.` is
its name. -/
def build_root_map (entries : List FSNode) : List (String × String × Option String) :=
  entries.map (fun e =>
    (fsName e, nodeType e, if describe (fsName e) = "" then none else some (describe (fsName e))))

/-- `collect_includes` from the source: keep, in file order, each file whose
`yaml_includes` result is non-empty (Python truthiness of a list). -/
def collect_includes : List (String × Option String) → List (String × List String)
  | [] => []
  | f :: fsRest =>
    (if (yaml_includes f.1 f.2).isEmpty then []
     else [(f.1, yaml_includes f.1 f.2)]) ++ collect_includes fsRest

/-- `make_relations` from the source: `{k: sorted(set(v)) for k, v in incmap.items()}`. -/
def make_relations (incmap : List (String × List String)) : List (String × List String) :=
  incmap.map (fun kv => (kv.1, sortedSet kv.2))

/-- One entry of the `files` list of the output document.  `description = none`
models the key being omitted (`describe` returned the empty string). -/
structure PathEntry where
  path : String
  type : String
  description : Option String
deriving DecidableEq, Repr

/-- The static `usage_rules` block. -/
structure UsageRules where
  model_behavior : String
  rules : List String
deriving DecidableEq, Repr

/-- The output document (`data` in `main`), minus JSON serialisation. -/
structure Snapshot where
  project_name : String
  repository : String
  generated : String
  root : List (String × String × Option String)
  files : List PathEntry
  yaml_includes : List (String × List String)
  relations : List (String × List String)
  usage_rules : UsageRules
deriving DecidableEq, Repr

/-- The pure part of `main`: assemble the snapshot from a filesystem state and
the generation timestamp.  Every walked path is a file (never a directory), so
`f.is_dir()` in the `files` comprehension is `False` and the `type` is
`"file"`. -/
def buildSnapshot (fs : List FSNode) (generated : String) : Snapshot :=
  let files := list_all fs
  let incmap := collect_includes files
  { project_name := "Home Assistant Configuration"
    repository := ""
    generated := generated
    root := build_root_map (top_level fs)
    files := files.map (fun fc =>
      { path := fc.1
        type := "file"
        description := if describe fc.1 = "" then none else some (describe fc.1) })
    yaml_includes := incmap
    relations := make_relations incmap
    usage_rules :=
      { model_behavior := "Использовать JSON как карту структуры проекта."
        rules := ["ESPHome → /esphome/", "Zigbee → /zigbee2mqtt/",
                  "Автоматизации → /blueprints/ или includes/automations.yaml",
                  "Главные настройки → configuration.yaml",
                  "Не выдумывать файлы вне структуры."] } }

/-- The snapshot with the `generated` timestamp blanked, for comparing two
runs field by field. -/
def stripGenerated (s : Snapshot) : Snapshot := { s with generated := "" }

/-! ### Helper lemmas -/

theorem sortedSet_sorted (xs : List String) : List.Sorted strLe (sortedSet xs) :=
  List.sorted_insertionSort strLe xs.dedup

theorem sortedSet_nodup (xs : List String) : (sortedSet xs).Nodup :=
  (List.perm_insertionSort strLe xs.dedup).symm.nodup (List.nodup_dedup xs)

theorem mem_sortedSet {a : String} {xs : List String} : a ∈ sortedSet xs ↔ a ∈ xs :=
  (List.mem_insertionSort strLe).trans List.mem_dedup

theorem sortedSet_idem (xs : List String) : sortedSet (sortedSet xs) = sortedSet xs := by
  show List.insertionSort strLe (sortedSet xs).dedup = sortedSet xs
  rw [List.dedup_eq_self.mpr (sortedSet_nodup xs)]
  exact (sortedSet_sorted xs).insertionSort_eq

theorem yaml_includes_shape (p : String) (c : Option String) :
    ∃ w, yaml_includes p c = sortedSet w := by
  unfold yaml_includes
  split
  · cases c
    · exact ⟨[], rfl⟩
    · exact ⟨_, rfl⟩
  · exact ⟨[], rfl⟩

theorem sortedSet_yaml_includes (p : String) (c : Option String) :
    sortedSet (yaml_includes p c) = yaml_includes p c := by
  obtain ⟨w, hw⟩ := yaml_includes_shape p c
  rw [hw, sortedSet_idem]

theorem yaml_includes_none (p : String) : yaml_includes p none = [] := by
  unfold yaml_includes
  split <;> rfl

theorem make_relations_append (a b : List (String × List String)) :
    make_relations (a ++ b) = make_relations a ++ make_relations b :=
  List.map_append _ a b

theorem make_relations_collect (l : List (String × Option String)) :
    make_relations (collect_includes l) = collect_includes l := by
  induction l with
  | nil => rfl
  | cons f rest ih =>
    show make_relations
        ((if (yaml_includes f.1 f.2).isEmpty then [] else [(f.1, yaml_includes f.1 f.2)]) ++
          collect_includes rest) = _
    rw [make_relations_append, ih]
    congr 1
    by_cases he : (yaml_includes f.1 f.2).isEmpty = true
    · rw [if_pos he]; rfl
    · rw [if_neg he]
      show [(f.1, sortedSet (yaml_includes f.1 f.2))] = _
      rw [sortedSet_yaml_includes]

theorem collect_includes_mem (l : List (String × Option String)) {kv : String × List String}
    (h : kv ∈ collect_includes l) :
    ∃ c, (kv.1, c) ∈ l ∧ kv.2 = yaml_includes kv.1 c ∧ (yaml_includes kv.1 c).isEmpty = false := by
  induction l with
  | nil => simp [collect_includes] at h
  | cons f rest ih =>
    rw [show collect_includes (f :: rest) =
        (if (yaml_includes f.1 f.2).isEmpty then [] else [(f.1, yaml_includes f.1 f.2)]) ++
          collect_includes rest from rfl] at h
    rcases List.mem_append.mp h with h1 | h1
    · by_cases he : (yaml_includes f.1 f.2).isEmpty = true
      · rw [if_pos he] at h1; simp at h1
      · rw [if_neg he] at h1
        have hkv : kv = (f.1, yaml_includes f.1 f.2) := by simpa using h1
        subst hkv
        exact ⟨f.2, by simp, rfl, by simpa using he⟩
    · obtain ⟨c, hc1, hc2, hc3⟩ := ih h1
      exact ⟨c, List.mem_cons_of_mem _ hc1, hc2, hc3⟩

theorem collect_includes_keys (l : List (String × Option String)) {k : String}
    (h : k ∈ (collect_includes l).map Prod.fst) : k ∈ l.map Prod.fst := by
  obtain ⟨kv, hkv, rfl⟩ := List.mem_map.mp h
  obtain ⟨c, hc, -, -⟩ := collect_includes_mem l hkv
  exact List.mem_map.mpr ⟨(kv.1, c), hc, rfl⟩

theorem mem_list_all {fs : List FSNode} {fc : String × Option String} :
    fc ∈ list_all fs ↔ ∃ x ∈ walkParts [] fs, (joinParts x.1, x.2) = fc :=
  (List.mem_insertionSort pathLe).trans List.mem_map

theorem walkParts_spec (pre : List String) (ns : List FSNode) :
    ∀ x ∈ walkParts pre ns, ∃ mid name c, x = (pre ++ mid ++ [name], c) ∧
      (∀ d ∈ mid, is_skip_dir d = false) ∧ is_skip_file name = false := by
  induction pre, ns using walkParts.induct with
  | case1 pre => intro x hx; simp [walkParts] at hx
  | case2 pre n c rest ih =>
    intro x hx
    simp only [walkParts] at hx
    rcases List.mem_append.mp hx with h | h
    · by_cases hskip : is_skip_file n = true
      · rw [if_pos hskip] at h; simp at h
      · rw [if_neg hskip] at h
        have hx2 : x = (pre ++ [n], c) := by simpa using h
        subst hx2
        exact ⟨[], n, c, by simp, by simp, by simpa using hskip⟩
    · exact ih x h
  | case3 pre n ch rest ih1 ih2 =>
    intro x hx
    simp only [walkParts] at hx
    rcases List.mem_append.mp hx with h | h
    · by_cases hskip : is_skip_dir n = true
      · rw [if_pos hskip] at h; simp at h
      · rw [if_neg hskip] at h
        obtain ⟨mid, name, c, hx1, hmid, hname⟩ := ih1 x h
        refine ⟨n :: mid, name, c, by simpa [List.append_assoc] using hx1, ?_, hname⟩
        intro d hd
        rcases List.mem_cons.mp hd with rfl | hd2
        · simpa using hskip
        · exact hmid d hd2
    · exact ih2 x h

theorem files_map_path (fs : List FSNode) (t : String) :
    (buildSnapshot fs t).files.map PathEntry.path = (list_all fs).map Prod.fst := by
  show ((list_all fs).map _).map PathEntry.path = _
  rw [List.map_map]
  rfl

theorem relations_map_fst (m : List (String × List String)) :
    (make_relations m).map Prod.fst = m.map Prod.fst := by
  unfold make_relations
  rw [List.map_map]
  rfl

theorem mem_files_of_mem_list_all {fs : List FSNode} {t : String} {fc : String × Option String}
    (hfc : fc ∈ list_all fs) :
    ({ path := fc.1, type := "file",
       description := if describe fc.1 = "" then none else some (describe fc.1) } : PathEntry) ∈
      (buildSnapshot fs t).files :=
  List.mem_map.mpr ⟨fc, hfc, rfl⟩

theorem mem_files_elim {fs : List FSNode} {t : String} {e : PathEntry}
    (he : e ∈ (buildSnapshot fs t).files) :
    ∃ fc ∈ list_all fs, e =
      { path := fc.1, type := "file",
        description := if describe fc.1 = "" then none else some (describe fc.1) } := by
  have he' : e ∈ (list_all fs).map (fun fc =>
      ({ path := fc.1, type := "file",
         description := if describe fc.1 = "" then none else some (describe fc.1) } : PathEntry)) :=
    he
  obtain ⟨fc, hfc, hfc2⟩ := List.mem_map.mp he'
  exact ⟨fc, hfc, hfc2.symm⟩

theorem find?_first {α : Type} (l : List α) (p : α → Bool) (i : Nat) (hi : i < l.length)
    (hp : p (l.get ⟨i, hi⟩) = true)
    (hmin : ∀ j (hj : j < l.length), j < i → p (l.get ⟨j, hj⟩) = false) :
    l.find? p = some (l.get ⟨i, hi⟩) := by
  induction l generalizing i with
  | nil => simp at hi
  | cons a l ih =>
    cases i with
    | zero => exact List.find?_cons_of_pos l hp
    | succ n =>
      have h0 : p a = false := hmin 0 (by simp) (Nat.succ_pos n)
      rw [List.find?_cons_of_neg l (by simp [h0])]
      exact ih n (by simpa using hi) hp
        (fun j hj hji => hmin (j + 1) (by simpa using hj) (by omega))

/-! ### Example filesystem states used by witnesses and counterexamples -/

/-- A root holding only the main Home Assistant configuration file. -/
def exMainCfg : List FSNode :=
  [FSNode.file "configuration.yaml" (some "sensor: !include includes/sensors.yaml")]

/-- A root holding one top-level file whose name ends with the excluded
suffix `.log`. -/
def exLogAtRoot : List FSNode := [FSNode.file "x.log" none]

/-- A root holding one non-excluded subdirectory with one file inside. -/
def exSubDir : List FSNode := [FSNode.dir "sub" [FSNode.file "a.txt" (some "")]]

/-- A root holding one YAML file whose content cannot be read. -/
def exBroken : List FSNode := [FSNode.file "broken.yaml" none]

/-! ### Claim theorems -/

/-- Claim C1, counterexample: the original claim says a node whose file name
ends with an excluded suffix appears nowhere in the output, including the
`root` map; but `top_level` filters only by the directory exclusion set, so
the top-level file `x.log` (excluded suffix `.log`, hence absent from `files`)
does appear as a key of the `root` map. -/
theorem c1_counterexample :
    is_skip_file "x.log" = true ∧
      (buildSnapshot exLogAtRoot "t").root = [("x.log", "file", none)] ∧
      (buildSnapshot exLogAtRoot "t").files = [] := by
  refine ⟨by decide, by decide, ?_⟩
  simp only [buildSnapshot, list_all, walkParts, exLogAtRoot]
  decide

/-- Claim C1, amended: every file emitted by the walk lies under no excluded
directory and has no excluded suffix; every `files` entry is such a walked
path; every key of `yaml_includes` and of `relations` is a `files` path; and
every `root` key passes the directory-name filter.  (The `root` map applies
only the directory-name filter, so a top-level file with an excluded suffix
does appear there — that is the single correction to the claim.) -/
theorem c1_exclusion (fs : List FSNode) (t : String) :
    (∀ x ∈ walkParts [] fs, ∃ dirs name, x.1 = dirs ++ [name] ∧
        (∀ d ∈ dirs, is_skip_dir d = false) ∧ is_skip_file name = false) ∧
    (∀ e ∈ (buildSnapshot fs t).files, ∃ x ∈ walkParts [] fs, e.path = joinParts x.1) ∧
    (∀ k ∈ (buildSnapshot fs t).yaml_includes.map Prod.fst,
        k ∈ (buildSnapshot fs t).files.map PathEntry.path) ∧
    (∀ k ∈ (buildSnapshot fs t).relations.map Prod.fst,
        k ∈ (buildSnapshot fs t).files.map PathEntry.path) ∧
    (∀ r ∈ (buildSnapshot fs t).root, is_skip_dir r.1 = false) := by
  refine ⟨?_, ?_, ?_, ?_, ?_⟩
  · intro x hx
    obtain ⟨mid, name, c, hx1, hmid, hname⟩ := walkParts_spec [] fs x hx
    exact ⟨mid, name, by simp [hx1], hmid, hname⟩
  · intro e he
    obtain ⟨fc, hfc, rfl⟩ := mem_files_elim he
    obtain ⟨x, hx, hfc2⟩ := mem_list_all.mp hfc
    exact ⟨x, hx, by rw [← hfc2]⟩
  · intro k hk
    rw [files_map_path]
    exact collect_includes_keys (list_all fs) hk
  · intro k hk
    rw [files_map_path]
    have hk' : k ∈ (make_relations (collect_includes (list_all fs))).map Prod.fst := hk
    rw [relations_map_fst] at hk'
    exact collect_includes_keys (list_all fs) hk'
  · intro r hr
    have hr' : r ∈ build_root_map (top_level fs) := hr
    obtain ⟨e, he, rfl⟩ := List.mem_map.mp hr'
    have hf := (List.mem_filter.mp he).2
    simpa using hf

/-- Claim C1, witness: the amended exclusion invariant instantiated on a
concrete filesystem. -/
theorem c1_witness :
    (∀ x ∈ walkParts [] exMainCfg, ∃ dirs name, x.1 = dirs ++ [name] ∧
        (∀ d ∈ dirs, is_skip_dir d = false) ∧ is_skip_file name = false) ∧
    (∀ e ∈ (buildSnapshot exMainCfg "t").files,
        ∃ x ∈ walkParts [] exMainCfg, e.path = joinParts x.1) ∧
    (∀ k ∈ (buildSnapshot exMainCfg "t").yaml_includes.map Prod.fst,
        k ∈ (buildSnapshot exMainCfg "t").files.map PathEntry.path) ∧
    (∀ k ∈ (buildSnapshot exMainCfg "t").relations.map Prod.fst,
        k ∈ (buildSnapshot exMainCfg "t").files.map PathEntry.path) ∧
    (∀ r ∈ (buildSnapshot exMainCfg "t").root, is_skip_dir r.1 = false) :=
  c1_exclusion exMainCfg "t"

/-- Claim C2, counterexample: the original claim says `files` has an entry for
every non-excluded directory; but `list_all` collects only the file lists of
`os.walk`, so for a root with the non-excluded directory `sub` the `files`
list holds only `sub/a.txt` and no entry with path `sub` exists. -/
theorem c2_counterexample :
    is_skip_dir "sub" = false ∧
      (buildSnapshot exSubDir "t").files =
        [{ path := "sub/a.txt", type := "file", description := none }] := by
  refine ⟨by decide, ?_⟩
  simp only [buildSnapshot, list_all, walkParts, exSubDir]
  decide

/-- Claim C2, amended: the `files` list holds an entry for every non-excluded
file reachable by the pruned recursive descent — and only files: every entry
has `type = "file"` (directories are never emitted, since `os.walk` file
lists contain no directories). -/
theorem c2_files_complete (fs : List FSNode) (t : String) :
    (∀ e ∈ (buildSnapshot fs t).files, e.type = "file") ∧
    (∀ x ∈ walkParts [] fs, joinParts x.1 ∈ (buildSnapshot fs t).files.map PathEntry.path) := by
  constructor
  · intro e he
    obtain ⟨fc, -, rfl⟩ := mem_files_elim he
    rfl
  · intro x hx
    rw [files_map_path]
    exact List.mem_map.mpr ⟨(joinParts x.1, x.2), mem_list_all.mpr ⟨x, hx, rfl⟩, rfl⟩

/-- Claim C2, witness: the amended completeness statement instantiated on a
concrete filesystem with a subdirectory. -/
theorem c2_witness :
    (∀ e ∈ (buildSnapshot exSubDir "t").files, e.type = "file") ∧
    (∀ x ∈ walkParts [] exSubDir,
        joinParts x.1 ∈ (buildSnapshot exSubDir "t").files.map PathEntry.path) :=
  c2_files_complete exSubDir "t"

/-- Claim C3, counterexample: the original claim says `.yml` files are scanned
for includes; but the code tests `path.suffix.lower().endswith('yaml')`, which
is false for the suffix `.yml`, so a `.yml` file containing an include line
yields `[]` while the same content under `.yaml` yields the target. -/
theorem c3_counterexample :
    yaml_includes "a.yml" (some "x: !include t.yaml") = [] ∧
      yaml_includes "a.yaml" (some "x: !include t.yaml") = ["t.yaml"] := ⟨rfl, rfl⟩

/-- Claim C3, amended: a file is scanned exactly when the lowercased suffix of
its base name ends with `yaml`; for every other file the extractor returns the
empty result and the result does not depend on the content (no read). -/
theorem c3_suffix_gate (p : String) (c₁ c₂ : Option String)
    (h : strEndsWith (strLower (pathSuffix (baseName p))) "yaml" = false) :
    yaml_includes p c₁ = [] ∧ yaml_includes p c₁ = yaml_includes p c₂ := by
  unfold yaml_includes
  rw [if_neg (by simp [h]), if_neg (by simp [h])]
  exact ⟨rfl, rfl⟩

/-- Claim C3, witness: a Python script file is never scanned, whatever its
content. -/
theorem c3_witness :
    strEndsWith (strLower (pathSuffix (baseName "script.py"))) "yaml" = false ∧
      (yaml_includes "script.py" (some "x: !include t.yaml") = [] ∧
        yaml_includes "script.py" (some "x: !include t.yaml") =
          yaml_includes "script.py" none) :=
  ⟨by decide, c3_suffix_gate "script.py" (some "x: !include t.yaml") none (by decide)⟩

/-- Claim C4: for every scanned file the extractor result is the
lexicographically sorted (code-point order `strLe`), duplicate-free list whose
members are exactly the include targets found in the text by the regular
expression scan. -/
theorem c4_sorted_unique (p t : String)
    (h : strEndsWith (strLower (pathSuffix (baseName p))) "yaml" = true) :
    List.Sorted strLe (yaml_includes p (some t)) ∧ (yaml_includes p (some t)).Nodup ∧
      ∀ s, s ∈ yaml_includes p (some t) ↔ s ∈ findIncludes t.data := by
  have he : yaml_includes p (some t) = sortedSet (findIncludes t.data) := by
    unfold yaml_includes
    rw [if_pos h]
  rw [he]
  exact ⟨sortedSet_sorted _, sortedSet_nodup _, fun s => mem_sortedSet⟩

/-- Claim C4, witness: a YAML file with two identical include lines for the
same target; the extractor result is sorted, duplicate-free, and (by direct
evaluation) the single-element list of that target. -/
theorem c4_witness :
    strEndsWith (strLower (pathSuffix (baseName "dup.yaml"))) "yaml" = true ∧
      (List.Sorted strLe
          (yaml_includes "dup.yaml" (some "a: !include same.yaml\na: !include same.yaml")) ∧
        (yaml_includes "dup.yaml" (some "a: !include same.yaml\na: !include same.yaml")).Nodup ∧
        ∀ s, s ∈ yaml_includes "dup.yaml" (some "a: !include same.yaml\na: !include same.yaml") ↔
          s ∈ findIncludes ("a: !include same.yaml\na: !include same.yaml").data) ∧
      yaml_includes "dup.yaml" (some "a: !include same.yaml\na: !include same.yaml") =
        ["same.yaml"] :=
  ⟨by decide,
   c4_sorted_unique "dup.yaml" "a: !include same.yaml\na: !include same.yaml" (by decide),
   by decide⟩

/-- Claim C5: `relations` equals `yaml_includes` exactly (hence the values are
set-equal key by key), because re-sorting and re-deduplicating the already
sorted, duplicate-free value lists is the identity. -/
theorem c5_relations_identity (fs : List FSNode) (t : String) :
    (buildSnapshot fs t).relations = (buildSnapshot fs t).yaml_includes ∧
    make_relations (buildSnapshot fs t).yaml_includes = (buildSnapshot fs t).yaml_includes :=
  ⟨make_relations_collect (list_all fs), make_relations_collect (list_all fs)⟩

/-- Claim C5, witness: the identity instantiated on a concrete run. -/
theorem c5_witness :
    (buildSnapshot exMainCfg "t").relations = (buildSnapshot exMainCfg "t").yaml_includes ∧
    make_relations (buildSnapshot exMainCfg "t").yaml_includes =
      (buildSnapshot exMainCfg "t").yaml_includes :=
  c5_relations_identity exMainCfg "t"

/-- Claim C6: `describe` is a total function (it always returns a string);
when the `i`-th table key (authored order) is a substring of the path and no
earlier key is, it returns the `i`-th description; when no key matches it
returns the extension-based fallback (`.yaml`/`.yml`, `.json`, `.py`, else the
empty string). -/
theorem c6_describe_first_match (p : String) :
    (∀ i (hi : i < DESCR.length), strContains p (DESCR.get ⟨i, hi⟩).1 = true →
      (∀ j (hj : j < DESCR.length), j < i → strContains p (DESCR.get ⟨j, hj⟩).1 = false) →
      describe p = (DESCR.get ⟨i, hi⟩).2) ∧
    ((∀ kv ∈ DESCR, strContains p kv.1 = false) →
      describe p =
        (if pathSuffix (baseName p) = ".yaml" ∨ pathSuffix (baseName p) = ".yml" then
          "YAML конфигурация."
        else if pathSuffix (baseName p) = ".json" then "JSON данные."
        else if pathSuffix (baseName p) = ".py" then "Python-скрипт."
        else "")) := by
  constructor
  · intro i hi hp hmin
    unfold describe
    rw [find?_first DESCR (fun kv => strContains p kv.1) i hi hp hmin]
  · intro hnone
    unfold describe
    rw [List.find?_eq_none.mpr (fun kv hkv => by simp [hnone kv hkv])]

/-- Claim C6, witness: the seventh table key `includes` is the first match for
`includes/automations.yaml`, so its description is returned. -/
theorem c6_witness :
    strContains "includes/automations.yaml" "includes" = true ∧
      describe "includes/automations.yaml" =
        "Подключаемые YAML-части конфигурации (sensors, switches и т.п.)." :=
  ⟨by decide,
   (c6_describe_first_match "includes/automations.yaml").1 6 (by decide) (by decide) (by decide)⟩

/-- Claim C7: a file whose content cannot be read yields the empty include
result; the run continues: the file still appears in `files` and contributes
no key to `yaml_includes`. -/
theorem c7_unreadable_local_recovery (p : String) (fs : List FSNode) (t : String)
    (hnone : ∀ fc ∈ list_all fs, fc.1 = p → fc.2 = none) :
    yaml_includes p none = [] ∧
      (∀ fc ∈ list_all fs, fc.1 = p → p ∈ (buildSnapshot fs t).files.map PathEntry.path) ∧
      p ∉ (buildSnapshot fs t).yaml_includes.map Prod.fst := by
  refine ⟨yaml_includes_none p, ?_, ?_⟩
  · intro fc hfc hp1
    rw [files_map_path]
    exact List.mem_map.mpr ⟨fc, hfc, hp1⟩
  · intro hmem
    have hmem' : p ∈ (collect_includes (list_all fs)).map Prod.fst := hmem
    obtain ⟨kv, hkv, hfst⟩ := List.mem_map.mp hmem'
    obtain ⟨c, hc, -, hne⟩ := collect_includes_mem _ hkv
    have hcn : c = none := hnone (kv.1, c) hc hfst
    rw [hcn, yaml_includes_none] at hne
    simp at hne

/-- Claim C7, witness: a root with one unreadable YAML file: it is listed in
`files` and absent from the `yaml_includes` keys. -/
theorem c7_witness :
    (∀ fc ∈ list_all exBroken, fc.1 = "broken.yaml" → fc.2 = none) ∧
      (yaml_includes "broken.yaml" none = [] ∧
        (∀ fc ∈ list_all exBroken, fc.1 = "broken.yaml" →
          "broken.yaml" ∈ (buildSnapshot exBroken "t").files.map PathEntry.path) ∧
        "broken.yaml" ∉ (buildSnapshot exBroken "t").yaml_includes.map Prod.fst) :=
  ⟨by simp only [list_all, walkParts, exBroken]; decide,
   c7_unreadable_local_recovery "broken.yaml" exBroken "t"
     (by simp only [list_all, walkParts, exBroken]; decide)⟩

/-- Claim C8: the scenario with `configuration.yaml` containing
`sensor: !include includes/sensors.yaml`: `yaml_includes` maps it to exactly
`["includes/sensors.yaml"]` and its `files` entry carries the
Home-Assistant-main-config description from the table. -/
theorem c8_scenario :
    (buildSnapshot exMainCfg "2024-01-01T00:00:00+00:00").yaml_includes =
      [("configuration.yaml", ["includes/sensors.yaml"])] ∧
    (buildSnapshot exMainCfg "2024-01-01T00:00:00+00:00").files =
      [{ path := "configuration.yaml", type := "file",
         description := some
           "Главный файл конфигурации Home Assistant. Импортирует остальные YAML через !include." }] := by
  constructor <;> (simp only [buildSnapshot, list_all, walkParts, exMainCfg]; decide)

/-- Claim C9: two runs over the same filesystem state agree on every field
except `generated`, and the `files` list is sorted lexicographically
(code-point order on the path strings). -/
theorem c9_deterministic_up_to_timestamp (fs : List FSNode) (t₁ t₂ : String) :
    stripGenerated (buildSnapshot fs t₁) = stripGenerated (buildSnapshot fs t₂) ∧
    List.Sorted strLe ((buildSnapshot fs t₁).files.map PathEntry.path) := by
  refine ⟨rfl, ?_⟩
  rw [files_map_path]
  exact (List.sorted_insertionSort pathLe _).map Prod.fst (fun a b hab => hab)

/-- Claim C9, witness: determinism and sortedness instantiated on a concrete
filesystem and two distinct timestamps. -/
theorem c9_witness :
    stripGenerated (buildSnapshot exMainCfg "2024-01-01") =
      stripGenerated (buildSnapshot exMainCfg "2025-01-01") ∧
    List.Sorted strLe ((buildSnapshot exMainCfg "2024-01-01").files.map PathEntry.path) :=
  c9_deterministic_up_to_timestamp exMainCfg "2024-01-01" "2025-01-01"

/-- Claim C10: every key of `yaml_includes` (and of `relations`) is the path
of an entry of the `files` list: the include map is computed only over the
walked, non-excluded files. -/
theorem c10_include_keys_from_files (fs : List FSNode) (t : String) :
    (∀ k ∈ (buildSnapshot fs t).yaml_includes.map Prod.fst,
        k ∈ (buildSnapshot fs t).files.map PathEntry.path) ∧
    (∀ k ∈ (buildSnapshot fs t).relations.map Prod.fst,
        k ∈ (buildSnapshot fs t).files.map PathEntry.path) := by
  constructor
  · intro k hk
    rw [files_map_path]
    exact collect_includes_keys (list_all fs) hk
  · intro k hk
    rw [files_map_path]
    have hk' : k ∈ (make_relations (collect_includes (list_all fs))).map Prod.fst := hk
    rw [relations_map_fst] at hk'
    exact collect_includes_keys (list_all fs) hk'

/-- Claim C10, witness: on a concrete run the single include-map key
`configuration.yaml` is a `files` path. -/
theorem c10_witness :
    "configuration.yaml" ∈ (buildSnapshot exMainCfg "t").files.map PathEntry.path :=
  (c10_include_keys_from_files exMainCfg "t").1 "configuration.yaml"
    (by simp only [buildSnapshot, list_all, walkParts, exMainCfg]; decide)
